import Mathlib

/-!
Shallow embedding of the SimpleFileSystem core (src/src/sfs.c, src/src/sfs.h)
and proofs about the claims of its specification.

The on-disk state is modelled as a record `FS` holding the superblock, the
free-block bitmap (as the byte array the C code manipulates), the inode table
and a word-level view of the data blocks used for indirect tables.  Machine
integers are modelled as `Nat`; the C bit operations on the bitmap bytes are
kept literally (`|||`, `&&&`, `^^^` restricted to 8 bits).  Directory entry
bytes are modelled separately by a logical slot list (`DirState`), matching
the packed `FileEntry` array of the source.
-/

namespace SFS

/-- `BLOCK_SIZE` from sfs.h. -/
def BLOCK_SIZE : Nat := 4096

/-- `TOTAL_BLOCKS` from sfs.h. -/
def TOTAL_BLOCKS : Nat := 32768

/-- `INODE_IN_USE` flag bit from sfs.h. -/
def INODE_IN_USE : Nat := 1

/-- `INODE_FILE` type bits from sfs.h. -/
def INODE_FILE : Nat := 2

/-- `INODE_DIR` type bits from sfs.h. -/
def INODE_DIR : Nat := 4

/-- `sizeof(FileEntry)` : 124 name bytes plus a 4-byte inode id. -/
def FILE_ENTRY_SIZE : Nat := 128

/-- Entries per directory block, `blockSize / sizeof(FileEntry)` at the
default block size. -/
def EPB : Nat := BLOCK_SIZE / FILE_ENTRY_SIZE

/-- The `INode` record of sfs.h: flags, size, childCount, three timestamps
and the 14-entry block map (12 direct, 1 single-indirect, 1 double-indirect).
The block map is a total function; only indices 0..13 are meaningful. -/
structure INode where
  flags : Nat
  size : Nat
  childCount : Nat
  lastAccess : Nat
  lastModify : Nat
  lastChange : Nat
  blocks : Nat → Nat

/-- `isFree` macro of sfs.h: the in-use bit of `flags` is clear. -/
def isFree (n : INode) : Bool := !((n.flags &&& INODE_IN_USE) == INODE_IN_USE)

/-- `getType` macro of sfs.h. -/
def getType (n : INode) : Nat := n.flags &&& 6

/-- `isDir` macro of sfs.h. -/
def isDir (n : INode) : Bool := getType n == INODE_DIR

/-- `isFile` macro of sfs.h. -/
def isFile (n : INode) : Bool := getType n == INODE_FILE

/-- The `SuperBlock` record of sfs.h (the magic number is omitted: only
formatted images are modelled). -/
structure SuperBlock where
  blockSize : Nat
  numBlocks : Nat
  numINodes : Nat
  numINodeBlocks : Nat
  numFreeBlocks : Nat
  numFreeINodes : Nat
  firstINodeBlock : Nat
  firstDataBlock : Nat
  bitmapBlock : Nat

/-- The mutable filesystem state threaded through every operation:
the superblock, the bitmap block (byte array, one bit per block), the inode
table, and a word view of the data blocks (`disk b i` is the i-th `BlockID`
stored in block `b`, used by the indirect-table walks of `sfs_unlink`).
Directory-entry bytes are modelled separately (`DirState` below). -/
structure FS where
  sb : SuperBlock
  bitmap : Nat → Nat
  inodes : Nat → INode
  disk : Nat → Nat → Nat

/-- The bitmap bit of block `id`: bit `id % 8` of byte `bitmap[id / 8]`. -/
def bitOf (s : FS) (id : Nat) : Bool := (s.bitmap (id / 8)).testBit (id % 8)

/-- `markBlockUsed`: `bitmap[id/8] |= 1 << (id % 8)`, then
`superblock->numFreeBlocks--` (sfs.c lines 103-108). -/
def markBlockUsed (s : FS) (id : Nat) : FS :=
  { s with
    bitmap := fun i =>
      if i = id / 8 then s.bitmap (id / 8) ||| (1 <<< (id % 8)) else s.bitmap i,
    sb := { s.sb with numFreeBlocks := s.sb.numFreeBlocks - 1 } }

/-- `markBlockFree` (sfs.c lines 110-117): refuses ids below
`firstDataBlock`; otherwise `bitmap[id/8] &= bitmap[id/8] & ~(1 << (id%8))`
and `numFreeBlocks++`.  The C complement `~(1 << k)` of an 8-bit byte is
`255 ^^^ (1 <<< k)` on the bits that exist in the byte. -/
def markBlockFree (s : FS) (id : Nat) : FS :=
  if id < s.sb.firstDataBlock then s
  else
    { s with
      bitmap := fun i =>
        if i = id / 8 then
          s.bitmap (id / 8) &&& (s.bitmap (id / 8) &&& (255 ^^^ (1 <<< (id % 8))))
        else s.bitmap i,
      sb := { s.sb with numFreeBlocks := s.sb.numFreeBlocks + 1 } }

/-- `markINodeUsed` (sfs.c lines 119-126): the whole flags word is
overwritten with `INODE_IN_USE`; `numFreeINodes--`.  No other field of the
inode record is touched. -/
def markINodeUsed (s : FS) (id : Nat) : FS :=
  { s with
    inodes := fun i =>
      if i = id then { s.inodes id with flags := INODE_IN_USE } else s.inodes i,
    sb := { s.sb with numFreeINodes := s.sb.numFreeINodes - 1 } }

/-- `markINodeFree` (sfs.c lines 128-135): `flags &= ~INODE_IN_USE`
(a 32-bit int, so the mask is 0xFFFFFFFE); `numFreeINodes++`. -/
def markINodeFree (s : FS) (id : Nat) : FS :=
  { s with
    inodes := fun i =>
      if i = id then
        { s.inodes id with flags := (s.inodes id).flags &&& 0xFFFFFFFE }
      else s.inodes i,
    sb := { s.sb with numFreeINodes := s.sb.numFreeINodes + 1 } }

/-- `allocateNextINode` (sfs.c lines 141-153): linear scan of the inode table
for the first record with the in-use bit clear; on success that inode is
marked used and its id returned. -/
def allocateNextINode (s : FS) : Option (Nat × FS) :=
  match (List.range s.sb.numINodes).find? (fun i => isFree (s.inodes i)) with
  | some i => some (i, markINodeUsed s i)
  | none => none

/-- `allocateNextBlock` (sfs.c lines 159-171): first-fit scan of the bitmap
starting at block 0; the found block is marked used and returned. -/
def allocateNextBlock (s : FS) : Option (Nat × FS) :=
  match (List.range s.sb.numBlocks).find? (fun i => !(bitOf s i)) with
  | some i => some (i, markBlockUsed s i)
  | none => none

/-- The image format performed by `main` (sfs.c lines 1241-1259) on an
unformatted image: superblock fields are initialised, the bitmap starts as
the all-zero calloc'ed block, and blocks `0 .. 2+numINodeBlocks-1`
(superblock, inode table, bitmap block) are marked used in order.
`numINodeBlocks` and `numINodes` are computed in the source from
`sizeof(INode)` (line 1247); they are parameters here because their exact
values do not affect the verified properties. -/
def formatFS (nib numINodes : Nat) (inodes0 : Nat → INode) (disk0 : Nat → Nat → Nat) : FS :=
  let sb : SuperBlock :=
    { blockSize := BLOCK_SIZE
      numBlocks := TOTAL_BLOCKS
      numINodes := numINodes
      numINodeBlocks := nib
      numFreeBlocks := TOTAL_BLOCKS
      numFreeINodes := numINodes
      firstINodeBlock := 1
      firstDataBlock := 1 + nib
      bitmapBlock := 1 + nib }
  (List.range (2 + nib)).foldl (fun t i => markBlockUsed t i)
    { sb := sb, bitmap := fun _ => 0, inodes := inodes0, disk := disk0 }

/-! ### The free-block count over the data region -/

/-- Number of 0-bits the bitmap shows in the data region
(block ids strictly above the bitmap block, which is `firstDataBlock`). -/
def freeCountData (s : FS) : Nat :=
  ((Finset.range s.sb.numBlocks).filter
    (fun b => s.sb.firstDataBlock < b ∧ bitOf s b = false)).card

/-! ### C1 / C7: bitmap-counter and metadata invariants -/

/-- Invariant of claim C7: every bitmap bit below `firstDataBlock`
(superblock and inode table) is set. -/
def MetaInv (s : FS) : Prop :=
  ∀ b, b < s.sb.firstDataBlock → bitOf s b = true

/-- Invariant of claim C1: all metadata bits up to and including the bitmap
block (whose id equals `firstDataBlock`) are set, and the superblock's
`numFreeBlocks` equals the number of 0-bits in the data region. -/
def CounterInv (s : FS) : Prop :=
  (∀ b, b ≤ s.sb.firstDataBlock → bitOf s b = true)
  ∧ s.sb.numFreeBlocks = freeCountData s

/-- An all-zero inode record (`memset(&curNode, 0, sizeof(INode))`). -/
def zeroINode : INode :=
  { flags := 0, size := 0, childCount := 0,
    lastAccess := 0, lastModify := 0, lastChange := 0, blocks := fun _ => 0 }

/-- Concrete 8-block state used to witness the C7 preservation theorem:
`firstDataBlock = 2`, bitmap byte `0b00000111` (blocks 0,1,2 used). -/
def c7State : FS :=
  { sb := { blockSize := BLOCK_SIZE, numBlocks := 8, numINodes := 1,
            numINodeBlocks := 1, numFreeBlocks := 5, numFreeINodes := 1,
            firstINodeBlock := 1, firstDataBlock := 2, bitmapBlock := 2 },
    bitmap := fun i => if i = 0 then 7 else 0,
    inodes := fun _ => zeroINode,
    disk := fun _ _ => 0 }

/-! ### C9: the free-inode allocator -/

/-- State showing that `allocateNextINode` leaves every field except `flags`
untouched: inode 0 is free but still carries stale size/children/times/blocks
from its previous life. -/
def c9State : FS :=
  { sb := { blockSize := BLOCK_SIZE, numBlocks := 8, numINodes := 4,
            numINodeBlocks := 1, numFreeBlocks := 5, numFreeINodes := 4,
            firstINodeBlock := 1, firstDataBlock := 2, bitmapBlock := 2 },
    bitmap := fun i => if i = 0 then 7 else 0,
    inodes := fun i =>
      if i = 0 then
        { flags := 0, size := 7, childCount := 3,
          lastAccess := 5, lastModify := 5, lastChange := 5,
          blocks := fun j => if j = 0 then 42 else 0 }
      else zeroINode,
    disk := fun _ _ => 0 }

/-! ### C3: the byte count returned by sfs_read -/

/-- The byte count `sfs_read` returns (sfs.c lines 810-860): `offset` strictly
past the file size returns 0 early; a request overrunning the file is clamped
to `curFileSize - offset`; a clamped-to-zero (or zero) request returns 0
through the `size == 0` branch; otherwise the loop fills the whole (possibly
clamped) request and `size` is returned. -/
def sfs_read_ret (curFileSize n offset : Nat) : Nat :=
  if offset > curFileSize then 0
  else
    let n1 := if n + offset > curFileSize then curFileSize - offset else n
    if n1 = 0 then 0 else n1

/-! ### C2: sfs_write -/

/-- The copy loop of `sfs_write` (sfs.c lines 1007-1027): starting from the
head fragment already written, each iteration writes
`min(blocksize, size - written)` more bytes until `written == size`.
The C loop terminates after at most `size` iterations (each one writes at
least one byte when `blocksize > 0`); `fuel` makes that bound explicit so the
definition is structural. -/
def writeLoopGo (fuel blocksize n written : Nat) : Nat :=
  match fuel with
  | 0 => written
  | fuel + 1 =>
    if written = n then written
    else writeLoopGo fuel blocksize n (written + min blocksize (n - written))

/-- `sfs_write` on the success path (sfs.c lines 981-1035): the head fragment
writes `min(blocksize - offset % blocksize, size)` bytes, the loop writes the
rest, then `curNode.size += written`, all three timestamps are set to `now`,
and `written` is returned.  Block attachment (`assignNextBlock`) changes only
the block map, never `size`, so it is not needed to model these fields. -/
def sfs_write (node : INode) (n offset now blocksize : Nat) : INode × Nat :=
  let toWrite := min (blocksize - offset % blocksize) n
  let written := writeLoopGo n blocksize n toWrite
  ({ node with
      size := node.size + written,
      lastAccess := now, lastModify := now, lastChange := now }, written)

/-! ### C8: sfs_getattr -/

/-- The fields `sfs_getattr` fills into the stat buffer
(sfs.c lines 560-584). -/
structure StatBuf where
  st_mode : Nat
  st_nlink : Nat
  st_ino : Nat
  st_uid : Nat
  st_gid : Nat
  st_size : Nat
  st_atime : Nat
  st_mtime : Nat
  st_ctime : Nat
  st_blocks : Nat

/-- `S_IFDIR` (octal 040000). -/
def S_IFDIR : Nat := 16384

/-- `S_IFREG` (octal 100000). -/
def S_IFREG : Nat := 32768

/-- `S_IRWXU | S_IRWXG | S_IRWXO` (octal 777). -/
def S_IRWXALL : Nat := 511

/-- `sfs_getattr` on a resolved inode (sfs.c lines 560-584); `id` is the
resolved inode id.  Note `st_blocks = curNode.size / 512` — integer (floor)
division. -/
def sfs_getattr (node : INode) (id : Nat) : StatBuf :=
  { st_mode := (if isDir node then S_IFDIR else S_IFREG) ||| S_IRWXALL,
    st_nlink := 1,
    st_ino := id,
    st_uid := 0,
    st_gid := 0,
    st_size := node.size,
    st_atime := node.lastAccess,
    st_mtime := node.lastModify,
    st_ctime := node.lastChange,
    st_blocks := node.size / 512 }

/-- A one-byte file: `getattr` reports 0 blocks, not `⌈1/512⌉ = 1`. -/
def c8INode : INode :=
  { flags := 3, size := 1, childCount := 0,
    lastAccess := 11, lastModify := 12, lastChange := 13, blocks := fun _ => 0 }

/-! ### Dispatcher-level operations: allocateFile, addFileEntry, create, unlink -/

/-- Set all three timestamps of an inode to `now` (the parent-touch sequence
of `sfs_create` / `sfs_mkdir`, sfs.c lines 641-645). -/
def touchINode (s : FS) (id now : Nat) : FS :=
  { s with inodes := fun i =>
      if i = id then
        { s.inodes id with lastAccess := now, lastChange := now, lastModify := now }
      else s.inodes i }

/-- `allocateFile` (sfs.c lines 453-484): allocate an inode and one data
block, zero the block map, set the type flag (on top of the `INODE_IN_USE`
written by `markINodeUsed`), the initial size (one block for directories,
0 for files), zero `childCount`, stamp all three timestamps and attach the
block at `blocks[0]`.  The source's failure path also frees the inode again
before returning -1; failures are collapsed to `none` here because every
claim quantifies over successful operations. -/
def allocateFile (s : FS) (dirFlag : Bool) (now : Nat) : Option (Nat × FS) :=
  match allocateNextINode s with
  | none => none
  | some (id, s1) =>
    match allocateNextBlock s1 with
    | none => none
    | some (blk, s2) =>
      let node : INode :=
        { flags := INODE_IN_USE ||| (if dirFlag then INODE_DIR else INODE_FILE),
          size := if dirFlag then s2.sb.blockSize else 0,
          childCount := 0,
          lastAccess := now, lastModify := now, lastChange := now,
          blocks := fun i => if i = 0 then blk else 0 }
      some (id, { s2 with inodes := fun i => if i = id then node else s2.inodes i })

/-- The two ways `addFileEntry` returns -1: the `childCount == maxChildren`
check sets `errno = ENOSPC`; a failed `allocateNextBlock` returns -1 without
touching errno. -/
inductive AddErr where
  | noSpace
  | allocFail
deriving DecidableEq

/-- `addFileEntry` (sfs.c lines 259-295): refuse when `childCount` equals
`childrenPerBlock * 14`; otherwise place the entry at logical block
`childCount / childrenPerBlock` (allocating it — and growing `size` by one
block — when that `blocks[]` slot is 0), then increment `childCount`.
The name/id bytes written into the entry slot are modelled by the directory
slot view (`DirState` below); `child` is the id stored there. -/
def addFileEntry (s : FS) (dir child : Nat) : Except AddErr (Nat × FS) :=
  let childrenPerBlock := s.sb.blockSize / FILE_ENTRY_SIZE
  let maxChildren := childrenPerBlock * 14
  let node := s.inodes dir
  if node.childCount = maxChildren then .error .noSpace
  else
    let blk := node.childCount / childrenPerBlock
    if node.blocks blk = 0 then
      match allocateNextBlock s with
      | none => .error .allocFail
      | some (b, s1) =>
        let node1 : INode :=
          { node with
            blocks := fun j => if j = blk then b else node.blocks j,
            size := node.size + s.sb.blockSize,
            childCount := node.childCount + 1 }
        .ok (node.childCount,
          { s1 with inodes := fun i => if i = dir then node1 else s1.inodes i })
    else
      let node1 : INode := { node with childCount := node.childCount + 1 }
      .ok (node.childCount,
        { s with inodes := fun i => if i = dir then node1 else s.inodes i })

/-- `sfs_create` on the path-absent branch (sfs.c lines 635-653), with path
resolution abstracted: `parent` is the inode id `findParent` resolved.
Touch the parent's timestamps, allocate the file inode with its initial
block, then add the directory entry.  The final `sfs_open` touches only the
in-memory handle table. -/
def sfs_create (s : FS) (parent now : Nat) : Option (Nat × FS) :=
  let s1 := touchINode s parent now
  match allocateFile s1 false now with
  | none => none
  | some (id, s2) =>
    match addFileEntry s2 parent id with
    | .error _ => none
    | .ok (_, s3) => some (id, s3)

/-- `blockSize / sizeof(BlockID)`, the `idsPerBlock` of sfs.c. -/
def idsPerBlock (s : FS) : Nat := s.sb.blockSize / 4

/-- A C loop of the shape `for (i = 0; i < n; i++) { if (f(i) == 0) break;
use f(i); }`: the prefix of non-zero values of `f` starting at `i`. -/
def scanNZ (f : Nat → Nat) : Nat → Nat → List Nat
  | _, 0 => []
  | i, n + 1 => if f i = 0 then [] else f i :: scanNZ f (i + 1) n

/-- The blocks `sfs_unlink` frees, in order (sfs.c lines 718-750):
the double-indirect tree leaves-first (for each non-zero first-level pointer,
its data blocks then the pointer block, stopping at the first zero entry),
then the double-indirect root; the single-indirect leaves then its root; and
the direct blocks `blocks[0..11]` up to the first zero. -/
def unlinkFreeList (s : FS) (node : INode) : List Nat :=
  (if node.blocks 13 ≠ 0 then
      ((scanNZ (s.disk (node.blocks 13)) 0 (idsPerBlock s)).flatMap
        (fun a => scanNZ (s.disk a) 0 (idsPerBlock s) ++ [a])) ++ [node.blocks 13]
   else []) ++
  (if node.blocks 12 ≠ 0 then
      scanNZ (s.disk (node.blocks 12)) 0 (idsPerBlock s) ++ [node.blocks 12]
   else []) ++
  scanNZ node.blocks 0 12

/-- The `childCount` decrement `removeFileEntry` persists on the parent
(sfs.c lines 329-330); the swap of entry bytes inside the directory blocks
is modelled by the slot view (`DirState` below) and touches no counter. -/
def removeFileEntryCount (s : FS) (dir : Nat) : FS :=
  { s with inodes := fun i =>
      if i = dir then
        { s.inodes dir with childCount := (s.inodes dir).childCount - 1 }
      else s.inodes i }

/-- `sfs_unlink` (sfs.c lines 702-774) with path resolution abstracted:
`id` is the inode the path resolves to and `parent` its parent directory.
Free every reachable block, overwrite the inode record with zeroes
(`memset`), clear its in-use flag via `markINodeFree`, remove the parent
entry, and return `retstat = 0`.  There is no check of the inode's type. -/
def sfs_unlink (s : FS) (id parent : Nat) : Nat × FS :=
  let node := s.inodes id
  let s1 := (unlinkFreeList s node).foldl (fun t b => markBlockFree t b) s
  let s2 := { s1 with inodes := fun i => if i = id then zeroINode else s1.inodes i }
  let s3 := markINodeFree s2 id
  let s4 := removeFileEntryCount s3 parent
  (0, s4)

/-- Replace the flags word of inode `id` (used to state that `sfs_unlink`
never looks at the type bits). -/
def setINodeFlags (s : FS) (id flags : Nat) : FS :=
  { s with inodes := fun i =>
      if i = id then { s.inodes id with flags := flags } else s.inodes i }

attribute [ext] FS

attribute [ext] INode

/-! ### C5: the directory-capacity check of addFileEntry -/

/-- A directory (inode 0) whose `childCount` is exactly `EPB * 12 = 384`,
with 13 allocated direct blocks. -/
def c5State : FS :=
  { sb := { blockSize := BLOCK_SIZE, numBlocks := 8, numINodes := 4,
            numINodeBlocks := 1, numFreeBlocks := 5, numFreeINodes := 3,
            firstINodeBlock := 1, firstDataBlock := 2, bitmapBlock := 2 },
    bitmap := fun i => if i = 0 then 7 else 0,
    inodes := fun i =>
      if i = 0 then
        { flags := 5, size := 13 * BLOCK_SIZE, childCount := 384,
          lastAccess := 0, lastModify := 0, lastChange := 0,
          blocks := fun j => if j ≤ 12 then 100 + j else 0 }
      else zeroINode,
    disk := fun _ _ => 0 }

/-- A directory inode (id 1, one data block, two stale children counted in
its parent id 0) used to witness C10. -/
def c10State : FS :=
  { sb := { blockSize := BLOCK_SIZE, numBlocks := 8, numINodes := 4,
            numINodeBlocks := 1, numFreeBlocks := 3, numFreeINodes := 2,
            firstINodeBlock := 1, firstDataBlock := 2, bitmapBlock := 2 },
    bitmap := fun i => if i = 0 then 31 else 0,
    inodes := fun i =>
      if i = 0 then
        { flags := 5, size := BLOCK_SIZE, childCount := 2,
          lastAccess := 0, lastModify := 0, lastChange := 0,
          blocks := fun j => if j = 0 then 3 else 0 }
      else if i = 1 then
        { flags := 5, size := BLOCK_SIZE, childCount := 0,
          lastAccess := 0, lastModify := 0, lastChange := 0,
          blocks := fun j => if j = 0 then 4 else 0 }
      else zeroINode,
    disk := fun _ _ => 0 }

/-! ### C4: removeFileEntry over the directory slot view -/

/-- A directory entry: a name (124 bytes in the source, an opaque string
here) and an inode id. -/
structure FileEntry where
  value : String
  id : Nat
deriving DecidableEq

/-- The all-zero entry used as an out-of-range default. -/
def emptyFileEntry : FileEntry := { value := "", id := 0 }

/-- The logical view of one directory: its `childCount`, its direct-block
map (`curNode.blocks`), and the packed entry slots — slot `s` lives in disk
block `blocks (s / EPB)` at index `s % EPB`, exactly how `findFileEntry`
walks them. -/
structure DirState where
  childCount : Nat
  blocks : Nat → Nat
  slots : List FileEntry

/-- The slot `findFileEntry` (sfs.c lines 208-252) locates: the first slot
in `[0, childCount)` whose name equals `fname`.  The source returns the
containing disk block id and the index within that block, i.e.
`blocks (s / EPB)` and `s % EPB` for the found slot `s`. -/
def findEntrySlot (d : DirState) (fname : String) : Option Nat :=
  (List.range d.childCount).find?
    (fun i => (d.slots.getD i emptyFileEntry).value == fname)

/-- `removeFileEntry` (sfs.c lines 301-332): locate the entry; the source
then compares `block * childrenPerBlock + index` with `childCount - 1`,
where `block` is the DISK block id returned by `findFileEntry` (not the
logical block number) — so the test is against
`blocks (s / EPB) * EPB + s % EPB`.  When it differs from the last slot
number the last slot's entry is copied over the removed slot; finally
`childCount` is decremented.  Locating a missing name leaves the state
unchanged here (the source would use an uninitialised index). -/
def removeFileEntry (d : DirState) (fname : String) : DirState :=
  match findEntrySlot d fname with
  | none => d
  | some s =>
    if d.blocks (s / EPB) * EPB + s % EPB ≠ d.childCount - 1 then
      { d with
        slots := d.slots.set s (d.slots.getD (d.childCount - 1) emptyFileEntry),
        childCount := d.childCount - 1 }
    else
      { d with childCount := d.childCount - 1 }

/-- The directory used to witness C4: three entries in one data block
(disk block 994). -/
def c4Dir : DirState :=
  { childCount := 3,
    blocks := fun _ => 994,
    slots := [{ value := "a", id := 3 }, { value := "b", id := 4 },
              { value := "c", id := 5 }] }

/-- The name removed in the C4 witness. -/
def c4Name : String := "b"

/-- A consistent 16-block image: metadata blocks 0..3, root directory
(inode 0) holding 5 entries in its one data block (block 4); inodes 1..3
free; blocks 5..15 free. -/
def c6GoodState : FS :=
  { sb := { blockSize := BLOCK_SIZE, numBlocks := 16, numINodes := 4,
            numINodeBlocks := 2, numFreeBlocks := 11, numFreeINodes := 3,
            firstINodeBlock := 1, firstDataBlock := 3, bitmapBlock := 3 },
    bitmap := fun i => if i = 0 then 31 else 0,
    inodes := fun i =>
      if i = 0 then
        { flags := 5, size := BLOCK_SIZE, childCount := 5,
          lastAccess := 0, lastModify := 0, lastChange := 0,
          blocks := fun j => if j = 0 then 4 else 0 }
      else zeroINode,
    disk := fun _ _ => 0 }

/-- The same image with the root directory exactly at a block boundary:
`childCount = EPB = 32`, so the next `addFileEntry` must allocate a second
directory block. -/
def c6BadState : FS :=
  { sb := { blockSize := BLOCK_SIZE, numBlocks := 16, numINodes := 4,
            numINodeBlocks := 2, numFreeBlocks := 11, numFreeINodes := 3,
            firstINodeBlock := 1, firstDataBlock := 3, bitmapBlock := 3 },
    bitmap := fun i => if i = 0 then 31 else 0,
    inodes := fun i =>
      if i = 0 then
        { flags := 5, size := BLOCK_SIZE, childCount := 32,
          lastAccess := 0, lastModify := 0, lastChange := 0,
          blocks := fun j => if j = 0 then 4 else 0 }
      else zeroINode,
    disk := fun _ _ => 0 }

/-- The image sfs.c reaches through a fully successful sequence at the real
geometry (`firstDataBlock = bitmapBlock = 993`): format with root (inode 0,
block 994); `mkdir /d` (inode 1, block 995); 385 successful creates in `/d`
(file inodes 2..385 with data blocks 1008..1391; the directory grows to 13
entry blocks 995..1007, since `addFileEntry` caps directories at 14 blocks);
the 385th entry (slot 384, the first slot of `blocks[12]` = block 1007) is a
file named by the two bytes 0x50 0x61.  `strcpy` into the freshly allocated
(zero) entry block leaves the name field's first word reading
0x00006150 = 24912 little-endian, words 1..30 zero, and word 31 holding the
entry's inode id 385 — modelled here by the `disk` word view (the contents
of the other entry blocks 995..1006 are never read by `sfs_unlink`, which
frees direct blocks without reading them, and are left zero).
Blocks 0..1391 are used (bitmap bytes 0..173 = 255) and
`numFreeBlocks = 32768 - 1392 = 31376` matches the 0-bits in the data
region. -/
def c1BadState : FS :=
  { sb := { blockSize := BLOCK_SIZE, numBlocks := TOTAL_BLOCKS, numINodes := 31744,
            numINodeBlocks := 992, numFreeBlocks := 31376, numFreeINodes := 31358,
            firstINodeBlock := 1, firstDataBlock := 993, bitmapBlock := 993 },
    bitmap := fun i => if i ≤ 173 then 255 else 0,
    inodes := fun i =>
      if i = 0 then
        { flags := 5, size := BLOCK_SIZE, childCount := 1,
          lastAccess := 0, lastModify := 0, lastChange := 0,
          blocks := fun j => if j = 0 then 994 else 0 }
      else if i = 1 then
        { flags := 5, size := 13 * BLOCK_SIZE, childCount := 385,
          lastAccess := 0, lastModify := 0, lastChange := 0,
          blocks := fun j => if j ≤ 12 then 995 + j else 0 }
      else if i ≤ 385 then
        { flags := 3, size := 0, childCount := 0,
          lastAccess := 0, lastModify := 0, lastChange := 0,
          blocks := fun j => if j = 0 then 1006 + i else 0 }
      else zeroINode,
    disk := fun b i =>
      if b = 1007 then (if i = 0 then 24912 else if i = 31 then 385 else 0)
      else 0 }

/-- What `sfs_unlink` frees on `/d`: it walks `blocks[12]` (block 1007) as a
single-indirect table, reads the entry-name word 24912 and frees that
(already free) block, then 1007 itself, then the direct blocks 995..1006. -/
def c1FreeList : List Nat :=
  [24912, 1007, 995, 996, 997, 998, 999, 1000, 1001, 1002, 1003, 1004, 1005, 1006]

/-! ### Lemmas and claim theorems -/

/-! ### Bit-level behaviour of the bitmap operations -/

lemma testBit_one (j : Nat) : (1 : Nat).testBit j = decide (j = 0) := by
  cases j with
  | zero => decide
  | succ n =>
    rw [Nat.testBit_add_one]
    simp

lemma testBit_one_shiftLeft (k m : Nat) : (1 <<< k).testBit m = decide (m = k) := by
  rw [Nat.testBit_shiftLeft, testBit_one]
  by_cases h : k ≤ m
  · simp [h]
    omega
  · simp [h]
    omega

lemma testBit_255 (m : Nat) (h : m < 8) : (255 : Nat).testBit m = true := by
  interval_cases m <;> decide

/-- Distinct block ids that share a bitmap byte have distinct bit positions. -/
lemma mod8_ne_of_ne (j id : Nat) (hdiv : j / 8 = id / 8) (hne : j ≠ id) :
    j % 8 ≠ id % 8 := by
  intro h
  apply hne
  omega

lemma bitOf_markBlockUsed (s : FS) (id j : Nat) :
    bitOf (markBlockUsed s id) j = if j = id then true else bitOf s j := by
  unfold bitOf markBlockUsed
  dsimp only
  by_cases hd : j / 8 = id / 8
  · rw [hd, if_pos rfl, Nat.testBit_or, testBit_one_shiftLeft]
    by_cases hj : j = id
    · simp [hj]
    · have : j % 8 ≠ id % 8 := mod8_ne_of_ne j id hd hj
      simp [hj, this, hd]
  · have hj : j ≠ id := fun h => hd (by rw [h])
    simp [hd, hj]

lemma bitOf_markBlockFree_ge (s : FS) (id j : Nat)
    (hge : ¬ id < s.sb.firstDataBlock) :
    bitOf (markBlockFree s id) j = if j = id then false else bitOf s j := by
  unfold bitOf markBlockFree
  rw [if_neg hge]
  dsimp only
  by_cases hd : j / 8 = id / 8
  · rw [hd, if_pos rfl, Nat.testBit_and, Nat.testBit_and, Nat.testBit_xor,
      testBit_one_shiftLeft, testBit_255 (j % 8) (Nat.mod_lt j (by norm_num))]
    by_cases hj : j = id
    · simp [hj]
    · have : j % 8 ≠ id % 8 := mod8_ne_of_ne j id hd hj
      simp [hj, this, hd]
  · have hj : j ≠ id := fun h => hd (by rw [h])
    simp [hd, hj]

lemma bitOf_markBlockFree_lt (s : FS) (id : Nat)
    (hlt : id < s.sb.firstDataBlock) :
    markBlockFree s id = s := by
  unfold markBlockFree
  rw [if_pos hlt]

lemma freeCountData_markBlockUsed (s : FS) (id : Nat)
    (h1 : s.sb.firstDataBlock < id) (h2 : id < s.sb.numBlocks)
    (h3 : bitOf s id = false) :
    freeCountData (markBlockUsed s id) + 1 = freeCountData s := by
  unfold freeCountData
  have hsb : (markBlockUsed s id).sb.numBlocks = s.sb.numBlocks := rfl
  have hfd : (markBlockUsed s id).sb.firstDataBlock = s.sb.firstDataBlock := rfl
  have hmem : id ∈ (Finset.range s.sb.numBlocks).filter
      (fun b => s.sb.firstDataBlock < b ∧ bitOf s b = false) := by
    simp [Finset.mem_filter, Finset.mem_range, h1, h2, h3]
  have hset : (Finset.range (markBlockUsed s id).sb.numBlocks).filter
        (fun b => (markBlockUsed s id).sb.firstDataBlock < b ∧
          bitOf (markBlockUsed s id) b = false)
      = ((Finset.range s.sb.numBlocks).filter
        (fun b => s.sb.firstDataBlock < b ∧ bitOf s b = false)).erase id := by
    ext b
    simp only [Finset.mem_filter, Finset.mem_range, Finset.mem_erase, hsb, hfd,
      bitOf_markBlockUsed]
    by_cases hb : b = id
    · simp [hb]
    · simp [hb]
  rw [hset, Finset.card_erase_of_mem hmem]
  have hpos : 0 < ((Finset.range s.sb.numBlocks).filter
      (fun b => s.sb.firstDataBlock < b ∧ bitOf s b = false)).card :=
    Finset.card_pos.mpr ⟨id, hmem⟩
  omega

lemma freeCountData_markBlockFree (s : FS) (id : Nat)
    (h1 : s.sb.firstDataBlock < id) (h2 : id < s.sb.numBlocks)
    (h3 : bitOf s id = true) :
    freeCountData (markBlockFree s id) = freeCountData s + 1 := by
  have hge : ¬ id < s.sb.firstDataBlock := by omega
  unfold freeCountData
  have hsb : (markBlockFree s id).sb.numBlocks = s.sb.numBlocks := by
    unfold markBlockFree
    rw [if_neg hge]
  have hfd : (markBlockFree s id).sb.firstDataBlock = s.sb.firstDataBlock := by
    unfold markBlockFree
    rw [if_neg hge]
  have hnmem : id ∉ (Finset.range s.sb.numBlocks).filter
      (fun b => s.sb.firstDataBlock < b ∧ bitOf s b = false) := by
    simp [Finset.mem_filter, Finset.mem_range, h3]
  have hset : (Finset.range (markBlockFree s id).sb.numBlocks).filter
        (fun b => (markBlockFree s id).sb.firstDataBlock < b ∧
          bitOf (markBlockFree s id) b = false)
      = insert id ((Finset.range s.sb.numBlocks).filter
        (fun b => s.sb.firstDataBlock < b ∧ bitOf s b = false)) := by
    ext b
    simp only [Finset.mem_filter, Finset.mem_range, Finset.mem_insert, hsb, hfd,
      bitOf_markBlockFree_ge s id b hge]
    by_cases hb : b = id
    · simp [hb, h1, h2]
    · simp [hb]
  rw [hset, Finset.card_insert_of_not_mem hnmem]

/-! ### The format loop -/

lemma markBlockUsed_sb (s : FS) (id : Nat) :
    (markBlockUsed s id).sb = { s.sb with numFreeBlocks := s.sb.numFreeBlocks - 1 } :=
  rfl

lemma foldl_markBlockUsed_spec (s0 : FS) (m : Nat) :
    (∀ j, bitOf ((List.range m).foldl (fun t i => markBlockUsed t i) s0) j
        = (decide (j < m) || bitOf s0 j))
    ∧ ((List.range m).foldl (fun t i => markBlockUsed t i) s0).sb
        = { s0.sb with
            numFreeBlocks := s0.sb.numFreeBlocks - m } := by
  induction m with
  | zero =>
    constructor
    · intro j
      rw [List.range_zero, List.foldl_nil]
      simp
    · rw [List.range_zero, List.foldl_nil]
      simp
  | succ n ih =>
    rw [List.range_succ, List.foldl_append]
    obtain ⟨ihb, ihs⟩ := ih
    constructor
    · intro j
      rw [List.foldl_cons, List.foldl_nil, bitOf_markBlockUsed, ihb]
      by_cases hj : j = n
      · simp [hj]
      · have : (decide (j < n + 1) : Bool) = decide (j < n) := by
          simp only [decide_eq_decide]
          omega
        simp [hj, this]
    · rw [List.foldl_cons, List.foldl_nil, markBlockUsed_sb, ihs]
      simp [Nat.sub_sub]

lemma counterInv_formatFS (nib numINodes : Nat) (inodes0 : Nat → INode)
    (disk0 : Nat → Nat → Nat) :
    CounterInv (formatFS nib numINodes inodes0 disk0) := by
  unfold formatFS
  obtain ⟨hb, hs⟩ := foldl_markBlockUsed_spec
    { sb := { blockSize := BLOCK_SIZE, numBlocks := TOTAL_BLOCKS,
              numINodes := numINodes, numINodeBlocks := nib,
              numFreeBlocks := TOTAL_BLOCKS, numFreeINodes := numINodes,
              firstINodeBlock := 1, firstDataBlock := 1 + nib,
              bitmapBlock := 1 + nib },
      bitmap := fun _ => 0, inodes := inodes0, disk := disk0 } (2 + nib)
  constructor
  · intro b hble
    rw [hb b]
    rw [hs] at hble
    simp only at hble
    have : b < 2 + nib := by omega
    simp [this]
  · rw [hs]
    unfold freeCountData
    rw [hs]
    simp only
    have hfilter : (Finset.range TOTAL_BLOCKS).filter
        (fun b => 1 + nib < b ∧ bitOf ((List.range (2 + nib)).foldl
          (fun t i => markBlockUsed t i)
          { sb := { blockSize := BLOCK_SIZE, numBlocks := TOTAL_BLOCKS,
                    numINodes := numINodes, numINodeBlocks := nib,
                    numFreeBlocks := TOTAL_BLOCKS, numFreeINodes := numINodes,
                    firstINodeBlock := 1, firstDataBlock := 1 + nib,
                    bitmapBlock := 1 + nib },
            bitmap := fun _ => 0, inodes := inodes0, disk := disk0 }) b = false)
        = Finset.Ico (2 + nib) TOTAL_BLOCKS := by
      ext b
      rw [Finset.mem_filter, Finset.mem_range, Finset.mem_Ico, hb b]
      unfold bitOf
      simp only [Nat.zero_testBit, Bool.or_false, decide_eq_false_iff_not,
        Nat.not_lt]
      omega
    rw [hfilter, Nat.card_Ico]

lemma counterInv_allocateNextBlock (s : FS) (i : Nat) (s' : FS)
    (hinv : CounterInv s) (halloc : allocateNextBlock s = some (i, s')) :
    CounterInv s' := by
  unfold allocateNextBlock at halloc
  obtain ⟨hmeta, hcount⟩ := hinv
  cases hfind : (List.range s.sb.numBlocks).find? (fun i => !(bitOf s i)) with
  | none => rw [hfind] at halloc; exact absurd halloc (by simp)
  | some a =>
    rw [hfind] at halloc
    simp only [Option.some.injEq, Prod.mk.injEq] at halloc
    obtain ⟨rfl, rfl⟩ := halloc
    have hbit : bitOf s a = false := by
      have := List.find?_some hfind
      simpa using this
    have hlt : a < s.sb.numBlocks := by
      have := List.mem_of_find?_eq_some hfind
      simpa [List.mem_range] using this
    have hgt : s.sb.firstDataBlock < a := by
      by_contra hle
      have := hmeta a (by omega)
      rw [this] at hbit
      exact absurd hbit (by simp)
    have hcnt := freeCountData_markBlockUsed s a hgt hlt hbit
    constructor
    · intro b hble
      rw [bitOf_markBlockUsed]
      have hfd : (markBlockUsed s a).sb.firstDataBlock = s.sb.firstDataBlock := rfl
      rw [hfd] at hble
      by_cases hb : b = a
      · simp [hb]
      · simp only [hb, if_false, ite_false]
        exact hmeta b hble
    · have hnf : (markBlockUsed s a).sb.numFreeBlocks = s.sb.numFreeBlocks - 1 := rfl
      rw [hnf]
      omega

lemma counterInv_markBlockFree (s : FS) (id : Nat) (hinv : CounterInv s)
    (hbit : bitOf s id = true) (hgt : s.sb.firstDataBlock < id)
    (hlt : id < s.sb.numBlocks) :
    CounterInv (markBlockFree s id) := by
  obtain ⟨hmeta, hcount⟩ := hinv
  have hge : ¬ id < s.sb.firstDataBlock := by omega
  have hcnt := freeCountData_markBlockFree s id hgt hlt hbit
  constructor
  · intro b hble
    rw [bitOf_markBlockFree_ge s id b hge]
    have hfd : (markBlockFree s id).sb.firstDataBlock = s.sb.firstDataBlock := by
      unfold markBlockFree
      rw [if_neg hge]
    rw [hfd] at hble
    by_cases hb : b = id
    · omega
    · simp only [hb, if_false, ite_false]
      exact hmeta b hble
  · have hnf : (markBlockFree s id).sb.numFreeBlocks = s.sb.numFreeBlocks + 1 := by
      unfold markBlockFree
      rw [if_neg hge]
    rw [hnf, hcnt, hcount]

lemma metaInv_markBlockUsed (s : FS) (id : Nat) (h : MetaInv s) :
    MetaInv (markBlockUsed s id) := by
  intro b hb
  have hfd : (markBlockUsed s id).sb.firstDataBlock = s.sb.firstDataBlock := rfl
  rw [hfd] at hb
  rw [bitOf_markBlockUsed]
  by_cases hbid : b = id
  · simp [hbid]
  · simp only [hbid, if_false, ite_false]
    exact h b hb

lemma metaInv_markBlockFree (s : FS) (id : Nat) (h : MetaInv s) :
    MetaInv (markBlockFree s id) := by
  by_cases hge : id < s.sb.firstDataBlock
  · rw [bitOf_markBlockFree_lt s id hge]
    exact h
  · intro b hb
    have hfd : (markBlockFree s id).sb.firstDataBlock = s.sb.firstDataBlock := by
      unfold markBlockFree
      rw [if_neg hge]
    rw [hfd] at hb
    rw [bitOf_markBlockFree_ge s id b hge]
    have hbid : b ≠ id := by omega
    simp only [hbid, if_false, ite_false]
    exact h b hb

/-- C7: after formatting, every bitmap bit below `firstDataBlock`
(superblock and inode-table blocks) is 1, and both bitmap mutators —
`markBlockUsed` at any id and `markBlockFree` at any id, which are the only
functions any operation uses to change the bitmap — preserve this: in every
reachable state the metadata bits stay 1, because `markBlockUsed` only sets
bits and `markBlockFree` refuses ids below `firstDataBlock` and otherwise
clears only its own (data-region) bit. -/
theorem metadata_bits_always_set :
    (∀ nib numINodes inodes0 disk0, MetaInv (formatFS nib numINodes inodes0 disk0))
    ∧ (∀ s id, MetaInv s → MetaInv (markBlockUsed s id))
    ∧ (∀ s id, MetaInv s → MetaInv (markBlockFree s id)) := by
  refine ⟨fun nib numINodes inodes0 disk0 => ?_, metaInv_markBlockUsed,
    metaInv_markBlockFree⟩
  intro b hb
  have h := (counterInv_formatFS nib numINodes inodes0 disk0).1 b (by
    have hfd : (formatFS nib numINodes inodes0 disk0).sb.firstDataBlock = 1 + nib := by
      obtain ⟨_, hs⟩ := foldl_markBlockUsed_spec _ (2 + nib)
      unfold formatFS
      rw [hs]
    omega)
  exact h

theorem metadata_bits_always_set_witness :
    MetaInv c7State
    ∧ MetaInv (markBlockUsed c7State 3)
    ∧ MetaInv (markBlockFree c7State 4) := by
  have h0 : MetaInv c7State := by
    intro b hb
    have hb2 : b < 2 := hb
    interval_cases b <;> decide
  exact ⟨h0, metadata_bits_always_set.2.1 c7State 3 h0,
    metadata_bits_always_set.2.2 c7State 4 h0⟩

/-- C9, counterexample: the allocator (`allocateNextINode` + `markINodeUsed`)
succeeds on inode 0 of `c9State` but does not zero the size, child-count or
block-map fields (and touches no timestamp at all — it takes no clock input),
contradicting the claim that it zeroes them and stamps the current time. -/
theorem inode_allocator_counterexample :
    (allocateNextINode c9State).isSome = true
    ∧ ¬ (((allocateNextINode c9State).getD (0, c9State)).2.inodes 0).size = 0
    ∧ ¬ (((allocateNextINode c9State).getD (0, c9State)).2.inodes 0).childCount = 0
    ∧ ¬ ((((allocateNextINode c9State).getD (0, c9State)).2.inodes 0).blocks 0) = 0
    ∧ (((allocateNextINode c9State).getD (0, c9State)).2.inodes 0).lastAccess
        = (c9State.inodes 0).lastAccess := by
  decide

/-- C9, amended: when the free-inode allocator succeeds on id `i`, it
overwrites `flags` with `INODE_IN_USE` (thereby clearing the type bits) and
decrements `numFreeINodes` — and nothing else: size, child count, block map
and all three timestamps keep their previous values (the zeroing and
timestamping the claim describes happen later, in `allocateFile`). -/
theorem inode_allocator_success (s : FS) (i : Nat) (s' : FS)
    (h : allocateNextINode s = some (i, s')) :
    (s'.inodes i).flags = INODE_IN_USE
    ∧ s'.sb.numFreeINodes = s.sb.numFreeINodes - 1
    ∧ isFree (s.inodes i) = true
    ∧ i < s.sb.numINodes
    ∧ (s'.inodes i).size = (s.inodes i).size
    ∧ (s'.inodes i).childCount = (s.inodes i).childCount
    ∧ (s'.inodes i).lastAccess = (s.inodes i).lastAccess
    ∧ (s'.inodes i).lastModify = (s.inodes i).lastModify
    ∧ (s'.inodes i).lastChange = (s.inodes i).lastChange
    ∧ (∀ j, (s'.inodes i).blocks j = (s.inodes i).blocks j)
    ∧ (∀ k, k ≠ i → s'.inodes k = s.inodes k) := by
  unfold allocateNextINode at h
  cases hfind : (List.range s.sb.numINodes).find? (fun i => isFree (s.inodes i)) with
  | none => rw [hfind] at h; exact absurd h (by simp)
  | some a =>
    rw [hfind] at h
    simp only [Option.some.injEq, Prod.mk.injEq] at h
    obtain ⟨rfl, rfl⟩ := h
    have hfree : isFree (s.inodes a) = true := by
      have := List.find?_some hfind
      simpa using this
    have hlt : a < s.sb.numINodes := by
      have := List.mem_of_find?_eq_some hfind
      simpa [List.mem_range] using this
    refine ⟨?_, rfl, hfree, hlt, ?_, ?_, ?_, ?_, ?_, ?_, ?_⟩ <;>
      first
      | (intro k hk
         unfold markINodeUsed
         simp [hk])
      | (unfold markINodeUsed
         simp)

theorem inode_allocator_success_witness :
    allocateNextINode c9State = some (0, markINodeUsed c9State 0)
    ∧ ((markINodeUsed c9State 0).inodes 0).flags = INODE_IN_USE := by
  have h : allocateNextINode c9State = some (0, markINodeUsed c9State 0) := rfl
  exact ⟨h, (inode_allocator_success c9State 0 (markINodeUsed c9State 0) h).1⟩

/-- C3: reading at `offset ≥ file_size` returns 0 (at `offset = file_size`
via the clamped-size-zero branch rather than the early return); a request
overrunning end-of-file returns `file_size - offset`; a request inside the
file returns the full requested size. -/
theorem read_return_clamped (curFileSize n offset : Nat) :
    (curFileSize ≤ offset → sfs_read_ret curFileSize n offset = 0)
    ∧ (offset ≤ curFileSize → curFileSize < offset + n →
        sfs_read_ret curFileSize n offset = curFileSize - offset)
    ∧ (offset + n ≤ curFileSize → sfs_read_ret curFileSize n offset = n) := by
  refine ⟨fun h1 => ?_, fun h1 h2 => ?_, fun h1 => ?_⟩ <;>
    (simp only [sfs_read_ret]; split_ifs <;> omega)

theorem read_return_clamped_witness :
    sfs_read_ret 10 5 12 = 0
    ∧ sfs_read_ret 10 5 10 = 0
    ∧ sfs_read_ret 10 8 4 = 6
    ∧ sfs_read_ret 10 3 4 = 3 :=
  ⟨(read_return_clamped 10 5 12).1 (by decide),
   (read_return_clamped 10 5 10).1 (by decide),
   (read_return_clamped 10 8 4).2.1 (by decide) (by decide),
   (read_return_clamped 10 3 4).2.2 (by decide)⟩

lemma writeLoopGo_eq (fuel blocksize n written : Nat) (hbs : 0 < blocksize)
    (hle : written ≤ n) (hfuel : n - written ≤ fuel) :
    writeLoopGo fuel blocksize n written = n := by
  induction fuel generalizing written with
  | zero =>
    unfold writeLoopGo
    omega
  | succ m ih =>
    unfold writeLoopGo
    by_cases hw : written = n
    · rw [if_pos hw]
      exact hw
    · rw [if_neg hw]
      exact ih (written + min blocksize (n - written)) (by omega) (by omega)

/-- C2: every successful `sfs_write` of `n` bytes returns `n`, grows the
inode's `size` field by exactly `n` (additively, whatever the offset — even
when overwriting existing bytes), and sets all three timestamps to the
current time. -/
theorem write_adds_size_and_returns_n (node : INode) (n offset now blocksize : Nat)
    (hbs : 0 < blocksize) :
    (sfs_write node n offset now blocksize).2 = n
    ∧ (sfs_write node n offset now blocksize).1.size = node.size + n
    ∧ (sfs_write node n offset now blocksize).1.lastAccess = now
    ∧ (sfs_write node n offset now blocksize).1.lastModify = now
    ∧ (sfs_write node n offset now blocksize).1.lastChange = now := by
  have hmod : offset % blocksize < blocksize := Nat.mod_lt offset hbs
  have hwr : writeLoopGo n blocksize n (min (blocksize - offset % blocksize) n) = n :=
    writeLoopGo_eq n blocksize n _ hbs (by omega) (by omega)
  unfold sfs_write
  simp only [hwr]
  exact ⟨trivial, trivial, trivial, trivial, trivial⟩

theorem write_adds_size_and_returns_n_witness :
    (sfs_write zeroINode 10000 100 7 4096).2 = 10000
    ∧ (sfs_write zeroINode 10000 100 7 4096).1.size = zeroINode.size + 10000 :=
  ⟨(write_adds_size_and_returns_n zeroINode 10000 100 7 4096 (by decide)).1,
   (write_adds_size_and_returns_n zeroINode 10000 100 7 4096 (by decide)).2.1⟩

/-- C8, counterexample: for a file of size 1 the claim demands a block count
of `⌈1/512⌉ = 1`, but `sfs_getattr` computes `size / 512` with integer
division and reports 0. -/
theorem getattr_blocks_counterexample :
    (sfs_getattr c8INode 5).st_blocks = 0
    ∧ (c8INode.size + 511) / 512 = 1
    ∧ ¬ (sfs_getattr c8INode 5).st_blocks = (c8INode.size + 511) / 512 := by
  decide

/-- C8, amended: `getattr` reports block count `⌊size/512⌋` (the floor, so
up to 511 trailing bytes are not counted), mode bits `rwxrwxrwx`, uid 0,
gid 0, nlink 1, the inode's size and its three timestamps. -/
theorem getattr_fields (node : INode) (id : Nat) :
    (sfs_getattr node id).st_blocks * 512 ≤ node.size
    ∧ node.size < (sfs_getattr node id).st_blocks * 512 + 512
    ∧ (sfs_getattr node id).st_mode &&& 511 = S_IRWXALL
    ∧ (sfs_getattr node id).st_uid = 0
    ∧ (sfs_getattr node id).st_gid = 0
    ∧ (sfs_getattr node id).st_nlink = 1
    ∧ (sfs_getattr node id).st_ino = id
    ∧ (sfs_getattr node id).st_size = node.size
    ∧ (sfs_getattr node id).st_atime = node.lastAccess
    ∧ (sfs_getattr node id).st_mtime = node.lastModify
    ∧ (sfs_getattr node id).st_ctime = node.lastChange := by
  refine ⟨?_, ?_, ?_, rfl, rfl, rfl, rfl, rfl, rfl, rfl, rfl⟩
  · exact Nat.div_mul_le_self node.size 512
  · have h1 := Nat.div_add_mod node.size 512
    have h2 : node.size % 512 < 512 := Nat.mod_lt node.size (by decide)
    show node.size < node.size / 512 * 512 + 512
    omega
  · show ((if isDir node then S_IFDIR else S_IFREG) ||| S_IRWXALL) &&& 511 = S_IRWXALL
    by_cases hd : isDir node
    · rw [if_pos hd]
      decide
    · rw [if_neg hd]
      decide

/-- C5, counterexample: with `child_count = EPB · 12 = 384` the claim demands
`NoSpace`, but `addFileEntry` happily appends (its cap is
`childrenPerBlock * 14 = 448`, sfs.c line 261) and returns slot index 384 —
placing the entry in `blocks[12]`, the slot the inode format reserves for the
single-indirect pointer. -/
theorem add_entry_cap_counterexample :
    (c5State.inodes 0).childCount = EPB * 12
    ∧ (match addFileEntry c5State 0 7 with
       | .ok (idx, _) => idx
       | .error _ => 999) = 384 := by
  decide

/-- C5, amended: `addFileEntry` fails with `NoSpace` exactly when the
directory's `child_count` equals `childrenPerBlock * 14` (= `EPB · 14 = 448`
at the default block size): directory entries may occupy all 14 `blocks[]`
slots, including indices 12 and 13 that files use for indirect pointers
(an exhausted `allocateNextBlock` makes it fail too, but with plain -1, not
the `ENOSPC` errno of the capacity check). -/
theorem add_entry_nospace_iff (s : FS) (dir child : Nat) :
    addFileEntry s dir child = Except.error AddErr.noSpace
    ↔ (s.inodes dir).childCount = (s.sb.blockSize / FILE_ENTRY_SIZE) * 14 := by
  unfold addFileEntry
  by_cases hcap : (s.inodes dir).childCount = (s.sb.blockSize / FILE_ENTRY_SIZE) * 14
  · simp [hcap]
  · rw [if_neg hcap]
    apply iff_of_false _ hcap
    intro h
    split at h <;> simp [ite_eq_iff] at h

/-! ### C10: sfs_unlink on a directory -/

lemma markBlockFree_inodes (s : FS) (id : Nat) :
    (markBlockFree s id).inodes = s.inodes := by
  unfold markBlockFree
  split <;> rfl

lemma markBlockFree_disk (s : FS) (id : Nat) :
    (markBlockFree s id).disk = s.disk := by
  unfold markBlockFree
  split <;> rfl

lemma markBlockFree_numFreeINodes (s : FS) (id : Nat) :
    (markBlockFree s id).sb.numFreeINodes = s.sb.numFreeINodes := by
  unfold markBlockFree
  split <;> rfl

lemma markBlockFree_congr (s s' : FS) (id : Nat)
    (hsb : s.sb = s'.sb) (hbm : s.bitmap = s'.bitmap) :
    (markBlockFree s id).sb = (markBlockFree s' id).sb
    ∧ (markBlockFree s id).bitmap = (markBlockFree s' id).bitmap := by
  unfold markBlockFree
  rw [hsb, hbm]
  split
  · exact ⟨hsb, hbm⟩
  · exact ⟨rfl, rfl⟩

lemma foldl_markBlockFree_fields (l : List Nat) (s : FS) :
    ((l.foldl (fun t b => markBlockFree t b) s).inodes = s.inodes)
    ∧ ((l.foldl (fun t b => markBlockFree t b) s).disk = s.disk)
    ∧ ((l.foldl (fun t b => markBlockFree t b) s).sb.numFreeINodes
        = s.sb.numFreeINodes) := by
  induction l generalizing s with
  | nil => exact ⟨rfl, rfl, rfl⟩
  | cons b l ih =>
    rw [List.foldl_cons]
    obtain ⟨h1, h2, h3⟩ := ih (markBlockFree s b)
    exact ⟨h1.trans (markBlockFree_inodes s b),
      h2.trans (markBlockFree_disk s b),
      h3.trans (markBlockFree_numFreeINodes s b)⟩

lemma foldl_markBlockFree_congr (l : List Nat) (s s' : FS)
    (hsb : s.sb = s'.sb) (hbm : s.bitmap = s'.bitmap) :
    ((l.foldl (fun t b => markBlockFree t b) s).sb
      = (l.foldl (fun t b => markBlockFree t b) s').sb)
    ∧ ((l.foldl (fun t b => markBlockFree t b) s).bitmap
      = (l.foldl (fun t b => markBlockFree t b) s').bitmap) := by
  induction l generalizing s s' with
  | nil => exact ⟨hsb, hbm⟩
  | cons b l ih =>
    rw [List.foldl_cons, List.foldl_cons]
    obtain ⟨h1, h2⟩ := markBlockFree_congr s s' b hsb hbm
    exact ih (markBlockFree s b) (markBlockFree s' b) h1 h2

lemma unlinkFreeList_congr (s s' : FS) (node node' : INode)
    (hd : s.disk = s'.disk) (hsb : s.sb = s'.sb)
    (hbl : node.blocks = node'.blocks) :
    unlinkFreeList s node = unlinkFreeList s' node' := by
  unfold unlinkFreeList idsPerBlock
  rw [hd, hsb, hbl]

/-- `sfs_unlink` never reads anything of the unlinked inode except its block
map: two states agreeing everywhere except in other fields of inode `id`
unlink identically. -/
lemma sfs_unlink_eq_of_blocks_eq (s s' : FS) (id parent : Nat)
    (hsb : s.sb = s'.sb) (hbm : s.bitmap = s'.bitmap) (hdisk : s.disk = s'.disk)
    (hbl : (s.inodes id).blocks = (s'.inodes id).blocks)
    (hother : ∀ k, k ≠ id → s.inodes k = s'.inodes k) :
    sfs_unlink s id parent = sfs_unlink s' id parent := by
  unfold sfs_unlink
  dsimp only
  have hlist : unlinkFreeList s (s.inodes id) = unlinkFreeList s' (s'.inodes id) :=
    unlinkFreeList_congr s s' _ _ hdisk hsb hbl
  rw [hlist]
  set l := unlinkFreeList s' (s'.inodes id) with hl
  obtain ⟨hfsb, hfbm⟩ := foldl_markBlockFree_congr l s s' hsb hbm
  obtain ⟨hfi, hfd, _⟩ := foldl_markBlockFree_fields l s
  obtain ⟨hfi', hfd', _⟩ := foldl_markBlockFree_fields l s'
  have h2 : ({ l.foldl (fun t b => markBlockFree t b) s with
        inodes := fun i => if i = id then zeroINode
          else (l.foldl (fun t b => markBlockFree t b) s).inodes i } : FS)
      = { l.foldl (fun t b => markBlockFree t b) s' with
        inodes := fun i => if i = id then zeroINode
          else (l.foldl (fun t b => markBlockFree t b) s').inodes i } := by
    ext1
    · exact hfsb
    · exact hfbm
    · funext i
      by_cases hi : i = id
      · simp [hi]
      · rw [hfi, hfd'] at *
        simp only [hi, if_false, ite_false]
        rw [hfi, hfi']
        exact hother i hi
    · exact hfd.trans (hdisk.trans hfd'.symm)
  rw [h2]

/-- C10: `sfs_unlink` never checks the inode's type: on a path resolving to
a directory inode it proceeds exactly as for a file — the return value and
the entire final state are those of unlinking the same inode retyped as a
file — freeing the reachable blocks, zeroing the inode record, freeing the
inode (counter +1), and decrementing the parent's child count; it returns
success (0), not an error delegating to rmdir. -/
theorem unlink_accepts_directories (s : FS) (id parent newFlags : Nat)
    (hdir : isDir (s.inodes id) = true) (hpar : parent ≠ id) :
    (sfs_unlink s id parent).1 = 0
    ∧ (sfs_unlink s id parent).2.inodes id = zeroINode
    ∧ (sfs_unlink s id parent).2.sb.numFreeINodes = s.sb.numFreeINodes + 1
    ∧ ((sfs_unlink s id parent).2.inodes parent).childCount
        = (s.inodes parent).childCount - 1
    ∧ sfs_unlink s id parent = sfs_unlink (setINodeFlags s id newFlags) id parent := by
  obtain ⟨hfi, hfd, hfn⟩ := foldl_markBlockFree_fields
    (unlinkFreeList s (s.inodes id)) s
  have hpar' : ¬ (id = parent) := fun h => hpar h.symm
  refine ⟨rfl, ?_, ?_, ?_, ?_⟩
  · unfold sfs_unlink removeFileEntryCount markINodeFree
    dsimp only
    simp [hpar', zeroINode]
  · unfold sfs_unlink removeFileEntryCount markINodeFree
    dsimp only
    rw [hfn]
  · unfold sfs_unlink removeFileEntryCount markINodeFree
    dsimp only
    rw [if_pos rfl, if_neg hpar, if_neg hpar, hfi]
  · apply sfs_unlink_eq_of_blocks_eq
    · rfl
    · rfl
    · rfl
    · unfold setINodeFlags
      simp
    · intro k hk
      unfold setINodeFlags
      simp [hk]

theorem unlink_accepts_directories_witness :
    isDir (c10State.inodes 1) = true
    ∧ (sfs_unlink c10State 1 0).1 = 0
    ∧ (sfs_unlink c10State 1 0).2.sb.numFreeINodes
        = c10State.sb.numFreeINodes + 1 := by
  have h := unlink_accepts_directories c10State 1 0 3 (by decide) (by decide)
  exact ⟨by decide, h.1, h.2.2.1⟩

lemma getD_take (l : List FileEntry) (m i : Nat) (d : FileEntry) (h : i < m) :
    (l.take m).getD i d = l.getD i d := by
  rw [List.getD_eq_getElem?_getD, List.getD_eq_getElem?_getD,
    List.getElem?_take, if_pos h]

lemma take_eq_take_append (k : Nat) (B : List FileEntry) (e : FileEntry)
    (hk : 1 ≤ k) (hlen : k ≤ B.length) :
    B.take k = B.take (k-1) ++ [B.getD (k-1) e] := by
  have hk1 : k - 1 < B.length := by omega
  have h2 : B.take k = B.take ((k-1)+1) := by rw [Nat.sub_add_cancel hk]
  rw [h2, List.take_succ, List.getElem?_eq_getElem hk1,
    List.getD_eq_getElem B e hk1]
  rfl

/-- Overwriting slot `s` with `x` exchanges, as a multiset, the old entry at
`s` for `x`. -/
lemma multiset_set_getD (A : List FileEntry) (s : Nat) (x d : FileEntry)
    (hs : s < A.length) :
    Multiset.ofList (A.set s x) + {A.getD s d} = Multiset.ofList A + {x} := by
  induction A generalizing s with
  | nil => simp at hs
  | cons a t ih =>
    cases s with
    | zero =>
      rw [List.set_cons_zero, List.getD_cons_zero,
        ← Multiset.cons_coe, ← Multiset.cons_coe,
        ← Multiset.singleton_add, ← Multiset.singleton_add]
      abel
    | succ n =>
      have hn : n < t.length := by
        simp only [List.length_cons] at hs
        omega
      rw [List.set_cons_succ, List.getD_cons_succ,
        ← Multiset.cons_coe, ← Multiset.cons_coe,
        Multiset.cons_add, Multiset.cons_add, ih n hn]

/-- C4: for a directory holding `k ≥ 1` entries and a name present in it,
`removeFileEntry` finds the entry's slot, copies the last occupied slot over
it (the source's "is it the last slot" test compares the disk block id
`blocks (s/EPB)` times `EPB` against `childCount - 1`, so with data-region
block ids it always copies; copying the last slot onto itself is harmless),
and decrements `childCount`: afterwards slots `[0, k-1)` hold exactly the
other `k-1` entries (as a multiset — the swap gives no ordering guarantee). -/
theorem remove_entry_keeps_other_entries (d : DirState) (fname : String) (sIdx : Nat)
    (hfind : findEntrySlot d fname = some sIdx)
    (hlen : d.childCount ≤ d.slots.length)
    (hdata : d.childCount ≤ EPB * d.blocks (sIdx / EPB)) :
    (removeFileEntry d fname).childCount = d.childCount - 1
    ∧ (d.slots.getD sIdx emptyFileEntry).value = fname
    ∧ ((removeFileEntry d fname).slots.take (d.childCount - 1)
        ++ [d.slots.getD sIdx emptyFileEntry]).Perm (d.slots.take d.childCount) := by
  have hlt : sIdx < d.childCount := by
    have := List.mem_of_find?_eq_some hfind
    simpa [List.mem_range] using this
  have hval : (d.slots.getD sIdx emptyFileEntry).value = fname := by
    have := List.find?_some hfind
    simpa [beq_iff_eq] using this
  have hEPB : EPB = 32 := rfl
  have hcond : d.blocks (sIdx / EPB) * EPB + sIdx % EPB ≠ d.childCount - 1 := by
    have hcomm : EPB * d.blocks (sIdx / EPB) = d.blocks (sIdx / EPB) * EPB :=
      Nat.mul_comm ..
    rw [hcomm] at hdata
    omega
  have hrem : removeFileEntry d fname
      = { d with
          slots := d.slots.set sIdx
            (d.slots.getD (d.childCount - 1) emptyFileEntry),
          childCount := d.childCount - 1 } := by
    unfold removeFileEntry
    rw [hfind]
    dsimp only
    rw [if_pos hcond]
  refine ⟨by rw [hrem], hval, ?_⟩
  rw [hrem]
  have htakek := take_eq_take_append d.childCount d.slots emptyFileEntry
    (by omega) hlen
  by_cases hlast : sIdx = d.childCount - 1
  · have hnoop : (d.slots.set sIdx
        (d.slots.getD (d.childCount - 1) emptyFileEntry)).take (d.childCount - 1)
        = d.slots.take (d.childCount - 1) := by
      rw [List.set_take, List.set_eq_of_length_le]
      rw [List.length_take]
      omega
    simp only [hnoop]
    rw [hlast, ← htakek]
  · have hslt : sIdx < d.childCount - 1 := by omega
    refine Multiset.coe_eq_coe.mp ?_
    rw [List.set_take]
    have hA : sIdx < (d.slots.take (d.childCount - 1)).length := by
      rw [List.length_take]
      omega
    have hgd : (d.slots.take (d.childCount - 1)).getD sIdx emptyFileEntry
        = d.slots.getD sIdx emptyFileEntry :=
      getD_take d.slots (d.childCount - 1) sIdx emptyFileEntry hslt
    rw [← Multiset.coe_add, Multiset.coe_singleton, ← hgd,
      multiset_set_getD _ sIdx _ emptyFileEntry hA, htakek,
      ← Multiset.coe_add, Multiset.coe_singleton]

theorem remove_entry_keeps_other_entries_witness :
    findEntrySlot c4Dir c4Name = some 1
    ∧ (removeFileEntry c4Dir c4Name).childCount = 2
    ∧ ((removeFileEntry c4Dir c4Name).slots.take 2
        ++ [c4Dir.slots.getD 1 emptyFileEntry]).Perm (c4Dir.slots.take 3) := by
  have hfind : findEntrySlot c4Dir c4Name = some 1 := by decide
  have h := remove_entry_keeps_other_entries c4Dir c4Name 1 hfind (by decide) (by decide)
  exact ⟨hfind, h.1, h.2.2⟩

/-! ### C6: create followed by unlink and the superblock counters -/

lemma allocateNextINode_spec (s : FS) (i : Nat) (s' : FS)
    (h : allocateNextINode s = some (i, s')) :
    s' = markINodeUsed s i ∧ isFree (s.inodes i) = true ∧ i < s.sb.numINodes := by
  unfold allocateNextINode at h
  cases hfind : (List.range s.sb.numINodes).find? (fun k => isFree (s.inodes k)) with
  | none => rw [hfind] at h; exact absurd h (by simp)
  | some a =>
    rw [hfind] at h
    simp only [Option.some.injEq, Prod.mk.injEq] at h
    obtain ⟨rfl, rfl⟩ := h
    refine ⟨rfl, ?_, ?_⟩
    · have := List.find?_some hfind
      simpa using this
    · have := List.mem_of_find?_eq_some hfind
      simpa [List.mem_range] using this

lemma allocateNextBlock_spec (s : FS) (i : Nat) (s' : FS)
    (h : allocateNextBlock s = some (i, s')) :
    s' = markBlockUsed s i ∧ bitOf s i = false ∧ i < s.sb.numBlocks := by
  unfold allocateNextBlock at h
  cases hfind : (List.range s.sb.numBlocks).find? (fun k => !(bitOf s k)) with
  | none => rw [hfind] at h; exact absurd h (by simp)
  | some a =>
    rw [hfind] at h
    simp only [Option.some.injEq, Prod.mk.injEq] at h
    obtain ⟨rfl, rfl⟩ := h
    refine ⟨rfl, ?_, ?_⟩
    · have := List.find?_some hfind
      simpa using this
    · have := List.mem_of_find?_eq_some hfind
      simpa [List.mem_range] using this

/-- A file inode fresh from `allocateFile` owns exactly one block: the free
walk of `sfs_unlink` visits `blocks[0]` and stops. -/
lemma unlinkFreeList_single_direct (s : FS) (node : INode) (blk : Nat)
    (hbl : node.blocks = fun j => if j = 0 then blk else 0) (hblk : blk ≠ 0) :
    unlinkFreeList s node = [blk] := by
  unfold unlinkFreeList
  rw [hbl]
  simp [scanNZ, hblk]

/-- Counter effect of `sfs_unlink` on an inode whose only block is `blk` in
the data region: both counters go up by one. -/
lemma unlink_fresh_counters (t : FS) (i parent blk : Nat)
    (hnode : (t.inodes i).blocks = fun j => if j = 0 then blk else 0)
    (hblk : blk ≠ 0) (hgt : t.sb.firstDataBlock < blk) :
    (sfs_unlink t i parent).2.sb.numFreeBlocks = t.sb.numFreeBlocks + 1
    ∧ (sfs_unlink t i parent).2.sb.numFreeINodes = t.sb.numFreeINodes + 1 := by
  unfold sfs_unlink
  dsimp only
  rw [unlinkFreeList_single_direct t (t.inodes i) blk hnode hblk,
    List.foldl_cons, List.foldl_nil]
  unfold removeFileEntryCount markINodeFree markBlockFree
  rw [if_neg (by omega)]
  exact ⟨rfl, rfl⟩

/-- C6, amended: after a successful `create(p)` whose directory entry landed
in an already-allocated parent block, `unlink(p)` returns both counters to
their pre-create values.  (The general claim fails when `add_entry` had to
allocate a new parent-directory block: see the counterexample.) -/
theorem create_unlink_restores_counters (s : FS) (parent now id : Nat) (s1 : FS)
    (h7 : ∀ b, b ≤ s.sb.firstDataBlock → bitOf s b = true)
    (hparent : isFree (s.inodes parent) = false)
    (hslack : (s.inodes parent).blocks
        ((s.inodes parent).childCount / (s.sb.blockSize / FILE_ENTRY_SIZE)) ≠ 0)
    (hfb : 1 ≤ s.sb.numFreeBlocks) (hfi : 1 ≤ s.sb.numFreeINodes)
    (hsucc : sfs_create s parent now = some (id, s1)) :
    (sfs_unlink s1 id parent).2.sb.numFreeBlocks = s.sb.numFreeBlocks
    ∧ (sfs_unlink s1 id parent).2.sb.numFreeINodes = s.sb.numFreeINodes := by
  unfold sfs_create at hsucc
  dsimp only at hsucc
  cases hI : allocateNextINode (touchINode s parent now) with
  | none =>
    unfold allocateFile at hsucc
    rw [hI] at hsucc
    exact absurd hsucc (by simp)
  | some p =>
  obtain ⟨i, sI⟩ := p
  obtain ⟨hsI, hifree, _⟩ := allocateNextINode_spec _ _ _ hI
  cases hB : allocateNextBlock sI with
  | none =>
    unfold allocateFile at hsucc
    rw [hI] at hsucc
    dsimp only at hsucc
    rw [hB] at hsucc
    exact absurd hsucc (by simp)
  | some q =>
  obtain ⟨blk, sB⟩ := q
  obtain ⟨hsB, hbitI, _⟩ := allocateNextBlock_spec _ _ _ hB
  -- the allocated inode cannot be the (in-use) parent
  have hpne : parent ≠ i := by
    intro he
    have heq : (touchINode s parent now).inodes i
        = { s.inodes parent with
            lastAccess := now, lastChange := now, lastModify := now } := by
      unfold touchINode
      simp [he.symm]
    rw [heq] at hifree
    unfold isFree at hifree hparent
    dsimp only at hifree
    simp [hparent] at hifree
  set sF : FS :=
    { sB with inodes := fun k =>
        if k = i then
          { flags := INODE_IN_USE ||| INODE_FILE, size := 0, childCount := 0,
            lastAccess := now, lastModify := now, lastChange := now,
            blocks := fun j => if j = 0 then blk else 0 }
        else sB.inodes k } with hsFdef
  have hAF : allocateFile (touchINode s parent now) false now = some (i, sF) := by
    unfold allocateFile
    rw [hI]
    dsimp only
    rw [hB]
    rfl
  rw [hAF] at hsucc
  dsimp only at hsucc
  -- the parent inode as addFileEntry sees it
  have hsFparent : sF.inodes parent
      = { s.inodes parent with
          lastAccess := now, lastChange := now, lastModify := now } := by
    rw [hsFdef, hsB, hsI]
    unfold markBlockUsed markINodeUsed touchINode
    simp [hpne]
  have hsFi : sF.inodes i
      = { flags := INODE_IN_USE ||| INODE_FILE, size := 0, childCount := 0,
          lastAccess := now, lastModify := now, lastChange := now,
          blocks := fun j => if j = 0 then blk else 0 } := by
    rw [hsFdef]
    simp
  have hbs : sF.sb.blockSize = s.sb.blockSize := by
    rw [hsFdef, hsB, hsI]
    rfl
  by_cases hcap : (sF.inodes parent).childCount = (sF.sb.blockSize / FILE_ENTRY_SIZE) * 14
  · have herr : addFileEntry sF parent i = Except.error AddErr.noSpace := by
      unfold addFileEntry
      rw [if_pos hcap]
    rw [herr] at hsucc
    exact absurd hsucc (by simp)
  · by_cases hz : (sF.inodes parent).blocks
        ((sF.inodes parent).childCount / (sF.sb.blockSize / FILE_ENTRY_SIZE)) = 0
    · rw [hsFparent, hbs] at hz
      dsimp only at hz
      exact absurd hz hslack
    · set sC : FS :=
        { sF with inodes := fun k =>
            if k = parent then
              { sF.inodes parent with
                childCount := (sF.inodes parent).childCount + 1 }
            else sF.inodes k } with hsCdef
      have hADD : addFileEntry sF parent i
          = Except.ok ((sF.inodes parent).childCount, sC) := by
        unfold addFileEntry
        rw [if_neg hcap]
        dsimp only
        rw [if_neg hz]
      rw [hADD] at hsucc
      simp only [Option.some.injEq, Prod.mk.injEq] at hsucc
      obtain ⟨rfl, hs1⟩ := hsucc
      subst hs1
      -- facts about the freed block
      have hbitS : bitOf s blk = false := by
        rw [hsI] at hbitI
        exact hbitI
      have hgt : s.sb.firstDataBlock < blk := by
        by_contra hle
        have hb := h7 blk (by omega)
        rw [hb] at hbitS
        exact absurd hbitS (by simp)
      have hblk0 : blk ≠ 0 := by
        omega
      -- project the counters of the post-create state
      have hnfb : sC.sb.numFreeBlocks = s.sb.numFreeBlocks - 1 := by
        rw [hsCdef, hsFdef, hsB, hsI]
        rfl
      have hnfi : sC.sb.numFreeINodes = s.sb.numFreeINodes - 1 := by
        rw [hsCdef, hsFdef, hsB, hsI]
        rfl
      have hfd : sC.sb.firstDataBlock = s.sb.firstDataBlock := by
        rw [hsCdef, hsFdef, hsB, hsI]
        rfl
      have hnode : (sC.inodes i).blocks = fun j => if j = 0 then blk else 0 := by
        rw [hsCdef]
        dsimp only
        rw [if_neg (Ne.symm hpne)]
        simp
      obtain ⟨u1, u2⟩ := unlink_fresh_counters sC i parent blk hnode hblk0
        (by rw [hfd]; exact hgt)
      constructor
      · rw [u1, hnfb]
        omega
      · rw [u2, hnfi]
        omega

/-- C6, counterexample: when the parent directory's `child_count` sits at a
block boundary (32 = EPB), `create` allocates a directory block in addition
to the file's inode and data block; `unlink` frees only the file's resources
(`removeFileEntry` never frees directory blocks), so `num_free_blocks` ends
one below its pre-create value.  `num_free_inodes` does return. -/
theorem create_unlink_counterexample :
    (sfs_create c6BadState 0 7).isSome = true
    ∧ (c6BadState.inodes 0).childCount = EPB
    ∧ ¬ ((sfs_unlink ((sfs_create c6BadState 0 7).getD (0, c6BadState)).2
        ((sfs_create c6BadState 0 7).getD (0, c6BadState)).1 0).2.sb.numFreeBlocks
        = c6BadState.sb.numFreeBlocks)
    ∧ (sfs_unlink ((sfs_create c6BadState 0 7).getD (0, c6BadState)).2
        ((sfs_create c6BadState 0 7).getD (0, c6BadState)).1 0).2.sb.numFreeINodes
        = c6BadState.sb.numFreeINodes := by
  decide

theorem create_unlink_restores_counters_witness :
    (sfs_create c6GoodState 0 7).isSome = true
    ∧ (sfs_unlink ((sfs_create c6GoodState 0 7).getD (0, c6GoodState)).2
        ((sfs_create c6GoodState 0 7).getD (0, c6GoodState)).1 0).2.sb.numFreeBlocks
        = c6GoodState.sb.numFreeBlocks
    ∧ (sfs_unlink ((sfs_create c6GoodState 0 7).getD (0, c6GoodState)).2
        ((sfs_create c6GoodState 0 7).getD (0, c6GoodState)).1 0).2.sb.numFreeINodes
        = c6GoodState.sb.numFreeINodes := by
  have hs : sfs_create c6GoodState 0 7
      = some (((sfs_create c6GoodState 0 7).getD (0, c6GoodState)).1,
              ((sfs_create c6GoodState 0 7).getD (0, c6GoodState)).2) := by
    rfl
  have h := create_unlink_restores_counters c6GoodState 0 7 _ _
    (by
      intro b hb
      have hb3 : b ≤ 3 := hb
      interval_cases b <;> decide)
    (by decide) (by decide) (by decide) (by decide) hs
  exact ⟨by decide, h.1, h.2⟩

/-! ### C1: the counter invariant at the level of the public operations -/

lemma markBlockFree_fdb (s : FS) (id : Nat) :
    (markBlockFree s id).sb.firstDataBlock = s.sb.firstDataBlock := by
  unfold markBlockFree
  split <;> rfl

lemma markBlockFree_numBlocks (s : FS) (id : Nat) :
    (markBlockFree s id).sb.numBlocks = s.sb.numBlocks := by
  unfold markBlockFree
  split <;> rfl

/-- Folding `markBlockFree` over a list of data-region ids clears exactly the
listed bits. -/
lemma bitOf_foldl_markBlockFree (l : List Nat) (s : FS)
    (hge : ∀ b ∈ l, ¬ b < s.sb.firstDataBlock) (j : Nat) :
    bitOf (l.foldl (fun t b => markBlockFree t b) s) j
      = if j ∈ l then false else bitOf s j := by
  induction l generalizing s with
  | nil => simp
  | cons a t ih =>
    rw [List.foldl_cons]
    have hgea := hge a (List.mem_cons_self a t)
    have hrec := ih (markBlockFree s a) (fun b hbt => by
      rw [markBlockFree_fdb]
      exact hge b (List.mem_cons_of_mem a hbt))
    rw [hrec, bitOf_markBlockFree_ge s a j hgea]
    by_cases hja : j = a
    · simp [hja]
    · by_cases hjt : j ∈ t <;> simp [hja, hjt]

/-- Freeing a list of distinct, genuinely-allocated data-region blocks
preserves the counter invariant. -/
lemma counterInv_foldl_markBlockFree (l : List Nat) (s : FS)
    (hinv : CounterInv s) (hnd : l.Nodup)
    (hb : ∀ b ∈ l, bitOf s b = true ∧ s.sb.firstDataBlock < b ∧ b < s.sb.numBlocks) :
    CounterInv (l.foldl (fun t b => markBlockFree t b) s) := by
  induction l generalizing s with
  | nil => exact hinv
  | cons a t ih =>
    rw [List.foldl_cons]
    obtain ⟨ha1, ha2, ha3⟩ := hb a (List.mem_cons_self a t)
    have hge : ¬ a < s.sb.firstDataBlock := by omega
    apply ih (markBlockFree s a) (counterInv_markBlockFree s a hinv ha1 ha2 ha3)
      (List.Nodup.of_cons hnd)
    intro b hbt
    obtain ⟨hb1, hb2, hb3⟩ := hb b (List.mem_cons_of_mem a hbt)
    have hne : b ≠ a := by
      intro he
      subst he
      exact (List.nodup_cons.mp hnd).1 hbt
    refine ⟨?_, ?_, ?_⟩
    · rw [bitOf_markBlockFree_ge s a b hge]
      simp [hne, hb1]
    · rw [markBlockFree_fdb]
      exact hb2
    · rw [markBlockFree_numBlocks]
      exact hb3

/-- `sfs_unlink` preserves the counter invariant — and succeeds — whenever
the block list it walks consists of distinct, actually-allocated data-region
blocks (the §3 ownership invariant for the unlinked inode). -/
lemma counterInv_sfs_unlink (s : FS) (id parent : Nat)
    (hinv : CounterInv s)
    (hnd : (unlinkFreeList s (s.inodes id)).Nodup)
    (hb : ∀ b ∈ unlinkFreeList s (s.inodes id),
        bitOf s b = true ∧ s.sb.firstDataBlock < b ∧ b < s.sb.numBlocks) :
    (sfs_unlink s id parent).1 = 0 ∧ CounterInv (sfs_unlink s id parent).2 := by
  refine ⟨rfl, ?_⟩
  have h1 := counterInv_foldl_markBlockFree (unlinkFreeList s (s.inodes id)) s hinv hnd hb
  unfold sfs_unlink
  dsimp only
  unfold removeFileEntryCount markINodeFree
  dsimp only
  exact ⟨fun b hble => h1.1 b hble, h1.2⟩

/-- `sfs_create` preserves the counter invariant: it changes the bitmap and
`numFreeBlocks` only through `allocateNextBlock` (once for the file's block,
possibly once more for a new parent-directory entry block); every other step
touches only inode records or `numFreeINodes`. -/
lemma counterInv_sfs_create (s : FS) (parent now id : Nat) (s1 : FS)
    (hinv : CounterInv s) (hsucc : sfs_create s parent now = some (id, s1)) :
    CounterInv s1 := by
  unfold sfs_create at hsucc
  dsimp only at hsucc
  cases hI : allocateNextINode (touchINode s parent now) with
  | none =>
    unfold allocateFile at hsucc
    rw [hI] at hsucc
    exact absurd hsucc (by simp)
  | some p =>
  obtain ⟨i, sI⟩ := p
  obtain ⟨hsI, _, _⟩ := allocateNextINode_spec _ _ _ hI
  cases hB : allocateNextBlock sI with
  | none =>
    unfold allocateFile at hsucc
    rw [hI] at hsucc
    dsimp only at hsucc
    rw [hB] at hsucc
    exact absurd hsucc (by simp)
  | some q =>
  obtain ⟨blk, sB⟩ := q
  have hinvI : CounterInv sI := by
    rw [hsI]
    exact hinv
  have hinvB := counterInv_allocateNextBlock sI blk sB hinvI hB
  set sF : FS :=
    { sB with inodes := fun k =>
        if k = i then
          { flags := INODE_IN_USE ||| INODE_FILE, size := 0, childCount := 0,
            lastAccess := now, lastModify := now, lastChange := now,
            blocks := fun j => if j = 0 then blk else 0 }
        else sB.inodes k } with hsFdef
  have hAF : allocateFile (touchINode s parent now) false now = some (i, sF) := by
    unfold allocateFile
    rw [hI]
    dsimp only
    rw [hB]
    rfl
  rw [hAF] at hsucc
  dsimp only at hsucc
  have hinvF : CounterInv sF := by
    rw [hsFdef]
    exact hinvB
  by_cases hcap : (sF.inodes parent).childCount = (sF.sb.blockSize / FILE_ENTRY_SIZE) * 14
  · have herr : addFileEntry sF parent i = Except.error AddErr.noSpace := by
      unfold addFileEntry
      rw [if_pos hcap]
    rw [herr] at hsucc
    exact absurd hsucc (by simp)
  · by_cases hz : (sF.inodes parent).blocks
        ((sF.inodes parent).childCount / (sF.sb.blockSize / FILE_ENTRY_SIZE)) = 0
    · cases hB2 : allocateNextBlock sF with
      | none =>
        have herr : addFileEntry sF parent i = Except.error AddErr.allocFail := by
          unfold addFileEntry
          rw [if_neg hcap]
          dsimp only
          rw [if_pos hz, hB2]
        rw [herr] at hsucc
        exact absurd hsucc (by simp)
      | some q2 =>
        obtain ⟨b2, sB2⟩ := q2
        have hinvB2 := counterInv_allocateNextBlock sF b2 sB2 hinvF hB2
        have hADD : addFileEntry sF parent i
            = Except.ok ((sF.inodes parent).childCount,
                { sB2 with inodes := fun k =>
                    if k = parent then
                      { sF.inodes parent with
                        blocks := fun j =>
                          if j = (sF.inodes parent).childCount
                              / (sF.sb.blockSize / FILE_ENTRY_SIZE) then b2
                          else (sF.inodes parent).blocks j,
                        size := (sF.inodes parent).size + sF.sb.blockSize,
                        childCount := (sF.inodes parent).childCount + 1 }
                    else sB2.inodes k }) := by
          unfold addFileEntry
          rw [if_neg hcap]
          dsimp only
          rw [if_pos hz, hB2]
        rw [hADD] at hsucc
        simp only [Option.some.injEq, Prod.mk.injEq] at hsucc
        obtain ⟨rfl, hs1⟩ := hsucc
        rw [← hs1]
        exact hinvB2
    · have hADD : addFileEntry sF parent i
          = Except.ok ((sF.inodes parent).childCount,
              { sF with inodes := fun k =>
                  if k = parent then
                    { sF.inodes parent with
                      childCount := (sF.inodes parent).childCount + 1 }
                  else sF.inodes k }) := by
        unfold addFileEntry
        rw [if_neg hcap]
        dsimp only
        rw [if_neg hz]
      rw [hADD] at hsucc
      simp only [Option.some.injEq, Prod.mk.injEq] at hsucc
      obtain ⟨rfl, hs1⟩ := hsucc
      rw [← hs1]
      exact hinvF

/-! ### C1: the concrete refutation and the amended theorem -/

lemma bitOf_c1BadState (b : Nat) : bitOf c1BadState b = decide (b ≤ 1391) := by
  unfold bitOf c1BadState
  dsimp only
  by_cases h : b / 8 ≤ 173
  · rw [if_pos h, testBit_255 (b % 8) (Nat.mod_lt b (by norm_num))]
    have hb : b ≤ 1391 := by omega
    simp [hb]
  · rw [if_neg h, Nat.zero_testBit]
    have hb : ¬ b ≤ 1391 := by omega
    simp [hb]

lemma c1_freeList_eq :
    unlinkFreeList c1BadState (c1BadState.inodes 1) = c1FreeList := by
  decide

lemma freeCountData_c1BadState : freeCountData c1BadState = 31376 := by
  unfold freeCountData
  have hset : (Finset.range c1BadState.sb.numBlocks).filter
      (fun b => c1BadState.sb.firstDataBlock < b ∧ bitOf c1BadState b = false)
      = Finset.Ico 1392 32768 := by
    ext b
    rw [Finset.mem_filter, Finset.mem_range, Finset.mem_Ico, bitOf_c1BadState b]
    have h1 : c1BadState.sb.numBlocks = 32768 := rfl
    have h2 : c1BadState.sb.firstDataBlock = 993 := rfl
    rw [h1, h2]
    simp only [decide_eq_false_iff_not, Nat.not_le]
    omega
  rw [hset, Nat.card_Ico]

lemma c1_bitOf_after (j : Nat) :
    bitOf (sfs_unlink c1BadState 1 0).2 j
      = if j ∈ c1FreeList then false else bitOf c1BadState j := by
  have hge : ∀ b ∈ c1FreeList, ¬ b < c1BadState.sb.firstDataBlock := by decide
  have h := bitOf_foldl_markBlockFree c1FreeList c1BadState hge j
  unfold sfs_unlink
  dsimp only
  rw [c1_freeList_eq]
  exact h

lemma freeCountData_c1_after :
    freeCountData (sfs_unlink c1BadState 1 0).2 = 31389 := by
  unfold freeCountData
  have h1 : (sfs_unlink c1BadState 1 0).2.sb.numBlocks = 32768 := by decide
  have h2 : (sfs_unlink c1BadState 1 0).2.sb.firstDataBlock = 993 := by decide
  rw [h1, h2]
  have hmemiff : ∀ b : Nat, b ∈ c1FreeList ↔
      (b = 24912 ∨ b = 1007 ∨ b = 995 ∨ b = 996 ∨ b = 997 ∨ b = 998 ∨ b = 999
        ∨ b = 1000 ∨ b = 1001 ∨ b = 1002 ∨ b = 1003 ∨ b = 1004 ∨ b = 1005
        ∨ b = 1006) := by
    intro b
    simp [c1FreeList]
  have hset : (Finset.range 32768).filter
      (fun b => 993 < b ∧ bitOf (sfs_unlink c1BadState 1 0).2 b = false)
      = Finset.Ico 995 1008 ∪ Finset.Ico 1392 32768 := by
    ext b
    rw [Finset.mem_filter, Finset.mem_range, Finset.mem_union, Finset.mem_Ico,
      Finset.mem_Ico, c1_bitOf_after b, bitOf_c1BadState b]
    by_cases hmem : b ∈ c1FreeList
    · rw [if_pos hmem, hmemiff] at *
      simp only [eq_self_iff_true, and_true]
      omega
    · rw [if_neg hmem]
      rw [hmemiff] at hmem
      push_neg at hmem
      simp only [decide_eq_false_iff_not, Nat.not_le]
      omega
  rw [hset, Finset.card_union_of_disjoint, Nat.card_Ico, Nat.card_Ico]
  rw [Finset.disjoint_left]
  intro a ha hb
  rw [Finset.mem_Ico] at ha hb
  omega

/-- C1, counterexample: in the reachable state `c1BadState` the counter
matches the 0-bits of the data region, and the next operation —
`unlink("/d")` — succeeds (returns 0), yet afterwards `numFreeBlocks`
no longer equals the 0-bit count: the unlink walked the directory's
`blocks[12]` entry block as an indirect table, decoded the name bytes of
entry 384 as block id 24912 and "freed" that already-free block,
incrementing the counter (31376 → 31390) while only 13 data-region bits
were actually cleared (count 31376 → 31389).  Every operation in the
producing sequence succeeded, so the claim as stated is false. -/
theorem num_free_blocks_counterexample :
    c1BadState.sb.numFreeBlocks = freeCountData c1BadState
    ∧ isDir (c1BadState.inodes 1) = true
    ∧ bitOf c1BadState 24912 = false
    ∧ unlinkFreeList c1BadState (c1BadState.inodes 1) = c1FreeList
    ∧ (sfs_unlink c1BadState 1 0).1 = 0
    ∧ ¬ ((sfs_unlink c1BadState 1 0).2.sb.numFreeBlocks
        = freeCountData (sfs_unlink c1BadState 1 0).2) := by
  refine ⟨?_, by decide, by decide, c1_freeList_eq, rfl, ?_⟩
  · rw [freeCountData_c1BadState]
    decide
  · rw [freeCountData_c1_after]
    decide

/-- C1, amended: `num_free_blocks` equals the count of 0-bits in the data
region of the bitmap after formatting and across every successful `create`,
and across every successful `unlink` whose freed-block walk visits only
distinct, genuinely-allocated data-region blocks — which is the case for
every file and every directory that never spilled entries into the
indirect-pointer slots `blocks[12..13]`.  (Unlinking a directory with more
than `EPB · 12` entries misreads entry bytes as an indirect table and can
increment the counter for an already-free block: see the counterexample.) -/
theorem num_free_blocks_matches_bitmap :
    (∀ nib numINodes inodes0 disk0, CounterInv (formatFS nib numINodes inodes0 disk0))
    ∧ (∀ s parent now id s1, CounterInv s →
        sfs_create s parent now = some (id, s1) → CounterInv s1)
    ∧ (∀ s id parent, CounterInv s →
        (unlinkFreeList s (s.inodes id)).Nodup →
        (∀ b ∈ unlinkFreeList s (s.inodes id),
          bitOf s b = true ∧ s.sb.firstDataBlock < b ∧ b < s.sb.numBlocks) →
        (sfs_unlink s id parent).1 = 0 ∧ CounterInv (sfs_unlink s id parent).2) :=
  ⟨counterInv_formatFS, counterInv_sfs_create, counterInv_sfs_unlink⟩

theorem num_free_blocks_matches_bitmap_witness :
    CounterInv c6GoodState
    ∧ CounterInv ((sfs_create c6GoodState 0 7).getD (0, c6GoodState)).2
    ∧ (sfs_unlink c10State 1 0).1 = 0
    ∧ CounterInv ((sfs_unlink c10State 1 0).2) := by
  have hinvG : CounterInv c6GoodState := by
    constructor
    · intro b hb
      have hb3 : b ≤ 3 := hb
      interval_cases b <;> decide
    · decide
  have hs : sfs_create c6GoodState 0 7
      = some (((sfs_create c6GoodState 0 7).getD (0, c6GoodState)).1,
              ((sfs_create c6GoodState 0 7).getD (0, c6GoodState)).2) := rfl
  have hinv10 : CounterInv c10State := by
    constructor
    · intro b hb
      have hb2 : b ≤ 2 := hb
      interval_cases b <;> decide
    · decide
  have hu := num_free_blocks_matches_bitmap.2.2 c10State 1 0 hinv10 (by decide)
    (by decide)
  exact ⟨hinvG, num_free_blocks_matches_bitmap.2.1 c6GoodState 0 7 _ _ hinvG hs,
    hu.1, hu.2⟩

end SFS

